import Mathlib

/-!
Verification of the asset-generation pipeline of the storyboard generator.

The definitions below are a shallow embedding of the TypeScript source:
`pcmToWav`, `decode` (base64), the speaker-attribution and voice-assignment
logic of `handleGenerate`, the audio stage, `fetchStoryElements`, and the
zip-entry naming of `handleDownloadZip`.  Bytes are modelled as `Nat` values
(each produced modulo 256), byte buffers as `List Nat`.
-/

set_option maxRecDepth 4000
set_option maxHeartbeats 1000000

namespace Storyboard

/-! ## WAV encoder (`pcmToWav` in src/types.ts) -/

/-- Little-endian encoding of a 16-bit field, as `DataView.setUint16(_, v, true)`. -/
def u16le (v : Nat) : List Nat := [v % 256, v / 256 % 256]

/-- Little-endian encoding of a 32-bit field, as `DataView.setUint32(_, v, true)`. -/
def u32le (v : Nat) : List Nat :=
  [v % 256, v / 256 % 256, v / 65536 % 256, v / 16777216 % 256]

/-- Big-endian encoding of a 32-bit field, as `DataView.setUint32(_, v, false)`. -/
def u32be (v : Nat) : List Nat :=
  [v / 16777216 % 256, v / 65536 % 256, v / 256 % 256, v % 256]

/-- The `SAMPLE_RATE` constant from src/types.ts. -/
def SAMPLE_RATE : Nat := 24000

/-- Embedding of `pcmToWav`: 44-byte RIFF/WAVE header followed by the raw
PCM payload, with the exact field layout and endianness of the source. -/
def pcmToWav (pcmData : List Nat) (sampleRate numChannels bitsPerSample : Nat) :
    List Nat :=
  let byteRate := sampleRate * numChannels * (bitsPerSample / 8)
  let blockAlign := numChannels * (bitsPerSample / 8)
  let dataSize := pcmData.length
  let fileSize := 36 + dataSize
  u32be 0x52494646 ++        -- "RIFF"
  u32le fileSize ++
  u32be 0x57415645 ++        -- "WAVE"
  u32be 0x666d7420 ++        -- "fmt "
  u32le 16 ++                -- fmt chunk size
  u16le 1 ++                 -- PCM format
  u16le numChannels ++
  u32le sampleRate ++
  u32le byteRate ++
  u16le blockAlign ++
  u16le bitsPerSample ++
  u32be 0x64617461 ++        -- "data"
  u32le dataSize ++
  pcmData

/-- Read a little-endian 16-bit field at a byte offset (bytes past the end read as 0). -/
def readU16le (w : List Nat) (off : Nat) : Nat :=
  match w.drop off with
  | a :: b :: _ => a + 256 * b
  | [a] => a
  | [] => 0

/-- Read a little-endian 32-bit field at a byte offset (bytes past the end read as 0). -/
def readU32le (w : List Nat) (off : Nat) : Nat :=
  match w.drop off with
  | a :: b :: c :: d :: _ => a + 256 * b + 65536 * c + 16777216 * d
  | [a, b, c] => a + 256 * b + 65536 * c
  | [a, b] => a + 256 * b
  | [a] => a
  | [] => 0

/-- Audio parameters recovered from a WAV header. -/
structure WavParams where
  sampleRate : Nat
  numChannels : Nat
  bitsPerSample : Nat
  deriving DecidableEq, Repr

/-- Decode the format fields of a 44-byte WAV header at their standard offsets. -/
def decodeWavHeader (w : List Nat) : WavParams :=
  { sampleRate := readU32le w 24
    numChannels := readU16le w 22
    bitsPerSample := readU16le w 34 }

/-! ## Script model (src/types.ts) -/

/-- The `type` tag of a nested dialogue-block element. -/
inductive DKind where
  | parenthetical
  | dialogue
  deriving DecidableEq, Repr

/-- One nested element of a `DialogueBlock`: `{type, content}`. -/
structure DialogueElement where
  kind : DKind
  content : String
  deriving DecidableEq, Repr

/-- Tagged union of scene elements, as in src/types.ts.  A missing optional
`content` is modelled as the empty string (both are falsy in the source's
truthiness tests). -/
inductive SceneElement where
  | scene_heading (content : String)
  | action (content : String)
  | transition (content : String)
  | dialogue_block (character : String) (elements : List DialogueElement)
  deriving DecidableEq, Repr

/-- Test `el.type === 'dialogue_block'`. -/
def SceneElement.isDialogueBlock : SceneElement → Bool
  | .dialogue_block _ _ => true
  | _ => false

/-- Test `el.type === 'action' && el.content` (non-empty content is truthy). -/
def SceneElement.isNonEmptyAction : SceneElement → Bool
  | .action c => c != ""
  | _ => false

/-- Field `el.character` of a dialogue block. -/
def SceneElement.characterOf? : SceneElement → Option String
  | .dialogue_block ch _ => some ch
  | _ => none

/-! ## Speaker attribution (image loop of `handleGenerate`) -/

/-- Source `precedingElements.filter(el => el.type === 'dialogue_block').pop()`,
then `.character`: the character of the last dialogue block of a list. -/
def lastDialogueCharacter (l : List SceneElement) : Option String :=
  ((l.filter fun el => el.isDialogueBlock).getLast?).bind SceneElement.characterOf?

/-- Source `script.scene_elements.map((el, index) => (..el, index..)).filter(...)`:
the Action elements with non-empty content, paired with their original index. -/
def scenesWithAction (els : List SceneElement) : List (Nat × SceneElement) :=
  els.enum.filter fun p => p.2.isNonEmptyAction

/-- The image loop's stateful speaker attribution: `lastCharacter` starts as
the sentinel and is overwritten whenever the rescanned prefix contains a
dialogue block.  Produces `(sceneIndex, speaker)` per processed Action. -/
def attributeGo (els : List SceneElement) :
    String → List (Nat × SceneElement) → List (Nat × String)
  | _, [] => []
  | lastCharacter, (sceneIndex, _) :: rest =>
      let c := match lastDialogueCharacter (els.take sceneIndex) with
        | some ch => ch
        | none => lastCharacter
      (sceneIndex, c) :: attributeGo els c rest

/-- Speaker attribution for a whole script, starting from the sentinel
`'A character'` as in `handleGenerate`. -/
def attributeActions (els : List SceneElement) : List (Nat × String) :=
  attributeGo els "A character" (scenesWithAction els)

/-! ## Voice assignment (`handleGenerate`, step 5) -/

/-- The `MALE_VOICES` constant from src/types.ts. -/
def MALE_VOICES : List String := ["Puck", "Charon", "Fenrir", "Zephyr"]

/-- The `FEMALE_VOICES` constant from src/types.ts. -/
def FEMALE_VOICES : List String := ["Kore"]

/-- Inferred gender of a character. -/
inductive Gender where
  | male
  | female
  deriving DecidableEq, Repr

/-- JS regex `\w` (ASCII word character). -/
def isWordChar (c : Char) : Bool := c.isAlphanum || c = '_'

/-- JS regex `\s`, restricted to the ASCII whitespace characters. -/
def isSpaceChar (c : Char) : Bool :=
  c = ' ' || c = '\t' || c = '\n' || c = '\r' || c = '\x0b' || c = '\x0c'

/-- Word-character test of an optional character; the virtual position before
or after the text counts as a non-word character, as for JS `\b`. -/
def wordB : Option Char → Bool
  | some c => isWordChar c
  | none => false

/-- Case-insensitive literal match of `name` at the front of `text`; returns
the last consumed character (initially `prev`) and the remaining text. -/
def stripNameCI : List Char → Option Char → List Char →
    Option (Option Char × List Char)
  | [], last, rest => some (last, rest)
  | _ :: _, _, [] => none
  | n :: ns, _, c :: cs =>
      if n.toLower = c.toLower then stripNameCI ns (some c) cs else none

/-- Greedy `\s*`. -/
def dropSpaces : List Char → List Char
  | [] => []
  | c :: cs => if isSpaceChar c then dropSpaces cs else c :: cs

/-- Match `\s*\((m|f)\)` (case-insensitively) at the front of the text. -/
def genderAfter (rest : List Char) : Option Gender :=
  match dropSpaces rest with
  | '(' :: c :: ')' :: _ =>
      if c.toLower = 'm' then some Gender.male
      else if c.toLower = 'f' then some Gender.female
      else none
  | _ => none

/-- Try the whole pattern `\b<name>\b\s*\((m|f)\)` at one position, where
`prev` is the character just before that position. -/
def tryMatchAt (name : List Char) (prev : Option Char) (text : List Char) :
    Option Gender :=
  if wordB prev = wordB text.head? then none
  else
    match stripNameCI name prev text with
    | none => none
    | some (last, rest) =>
        if wordB last = wordB rest.head? then none
        else genderAfter rest

/-- Leftmost match of the pattern over the text. -/
def searchGender (name : List Char) : Option Char → List Char → Option Gender
  | prev, [] => tryMatchAt name prev []
  | prev, c :: cs =>
      match tryMatchAt name prev (c :: cs) with
      | some g => some g
      | none => searchGender name (some c) cs

/-- Embedding of the gender inference
`new RegExp('\\b' + characterName + '\\b\\s*\\((m|f)\\)', 'i')` matched
against the premise's `characters` text (for names without regex
metacharacters, the interpolated name is a literal). -/
def genderFromPremise (charactersText name : String) : Option Gender :=
  searchGender name.toList none charactersText.toList

/-- The mutable state of the voice-assignment loop: the `characterVoices` and
`assignedGenders` records (as insertion-ordered association lists) and the two
round-robin cursors. -/
structure VoiceState where
  characterVoices : List (String × String)
  assignedGenders : List (String × Gender)
  maleVoiceIndex : Nat
  femaleVoiceIndex : Nat
  deriving DecidableEq, Repr

/-- State before the forEach loop. -/
def initialVoiceState : VoiceState := ⟨[], [], 0, 0⟩

/-- One iteration of the voice-assignment forEach for one dialogue block's
character name.  Record presence is modelled by `lookup` (assigned voices are
never the empty string, so JS truthiness agrees). -/
def assignStep (charactersText : String) (s : VoiceState)
    (characterName : String) : VoiceState :=
  if (s.characterVoices.lookup characterName).isSome then s
  else
    let genders :=
      if (s.assignedGenders.lookup characterName).isSome then s.assignedGenders
      else
        match genderFromPremise charactersText characterName with
        | some g => s.assignedGenders ++ [(characterName, g)]
        | none => s.assignedGenders
    if genders.lookup characterName = some Gender.female ∧
        0 < FEMALE_VOICES.length then
      { characterVoices := s.characterVoices ++
          [(characterName,
            FEMALE_VOICES.getD (s.femaleVoiceIndex % FEMALE_VOICES.length) "")]
        assignedGenders := genders
        maleVoiceIndex := s.maleVoiceIndex
        femaleVoiceIndex := s.femaleVoiceIndex + 1 }
    else
      { characterVoices := s.characterVoices ++
          [(characterName,
            MALE_VOICES.getD (s.maleVoiceIndex % MALE_VOICES.length) "")]
        assignedGenders := genders
        maleVoiceIndex := s.maleVoiceIndex + 1
        femaleVoiceIndex := s.femaleVoiceIndex }

/-- The characters of the script's dialogue blocks, in document order. -/
def charactersOf (els : List SceneElement) : List String :=
  els.filterMap SceneElement.characterOf?

/-- The whole voice-assignment loop of `handleGenerate`. -/
def assignVoices (els : List SceneElement) (charactersText : String) :
    VoiceState :=
  (charactersOf els).foldl (assignStep charactersText) initialVoiceState

/-- The distinct names of a list, keeping the first occurrence of each. -/
def firstSeenGo (seen : List String) : List String → List String
  | [] => []
  | c :: cs =>
      if c ∈ seen then firstSeenGo seen cs
      else c :: firstSeenGo (seen ++ [c]) cs

/-- Distinct names in first-seen order. -/
def firstSeen (l : List String) : List String := firstSeenGo [] l

/-- The male-pool round-robin assignment for a block of fresh names, with the
male cursor starting at `k`. -/
def maleRoundRobin : Nat → List String → List (String × String)
  | _, [] => []
  | k, n :: ns =>
      (n, MALE_VOICES.getD (k % MALE_VOICES.length) "") :: maleRoundRobin (k + 1) ns

/-! ## Premise feeds (`fetchStoryElements` in src/services/geminiService.ts) -/

/-- Structure `StoryElements` from src/types.ts. -/
structure StoryElements where
  characters : String
  story : String
  today : String
  deriving DecidableEq, Repr

/-- Source `name.charAt(0).toUpperCase() + name.slice(1)`. -/
def capitalize (s : String) : String :=
  match s.toList with
  | [] => ""
  | c :: cs => String.mk (c.toUpper :: cs)

/-- One failed-feed line `'<Name>' feed: <reason>` pushed onto `failedFeeds`. -/
def failedFeedEntry (name reason : String) : String :=
  "\x27" ++ capitalize name ++ "\x27 feed: " ++ reason

/-- The `failedFeeds` list collected from the three settled results, in feed
order characters, story, today. -/
def failedFeeds (rc rs rt : Except String String) : List String :=
  (match rc with
   | .error e => [failedFeedEntry "characters" e]
   | .ok _ => []) ++
  (match rs with
   | .error e => [failedFeedEntry "story" e]
   | .ok _ => []) ++
  (match rt with
   | .error e => [failedFeedEntry "today" e]
   | .ok _ => [])

/-- JS `Array.prototype.join(sep)`. -/
def joinWith (sep : String) : List String → String
  | [] => ""
  | [x] => x
  | x :: xs => x ++ sep ++ joinWith sep xs

/-- The aggregate error message thrown when any feed failed. -/
def aggregateErrorMessage (entries : List String) : String :=
  "Could not fetch all story elements. Please check your connection or try again later. \n\nFailed feeds:\n- " ++
    joinWith "\n- " entries

/-- Embedding of `fetchStoryElements`, as a function of the settled results of the three
feed fetches (the fetches themselves are external collaborators). -/
def fetchStoryElements (rc rs rt : Except String String) :
    Except String StoryElements :=
  match rc, rs, rt with
  | .ok c, .ok s, .ok t => .ok ⟨c, s, t⟩
  | _, _, _ => .error (aggregateErrorMessage (failedFeeds rc rs rt))

/-! ## Base64 decoding (`decode` in src/types.ts) -/

/-- The value of one base64 alphabet character. -/
def b64Val (c : Char) : Option Nat :=
  if 'A' ≤ c ∧ c ≤ 'Z' then some (c.toNat - 65)
  else if 'a' ≤ c ∧ c ≤ 'z' then some (c.toNat - 71)
  else if '0' ≤ c ∧ c ≤ '9' then some (c.toNat + 4)
  else if c = '+' then some 62
  else if c = '/' then some 63
  else none

/-- Reassemble 6-bit groups into bytes (a trailing group of 2 codes yields
one byte, of 3 codes two bytes). -/
def decodeB64Chunks : List Nat → List Nat
  | a :: b :: c :: d :: rest =>
      (a * 4 + b / 16) :: (b % 16 * 16 + c / 4) :: (c % 4 * 64 + d) ::
        decodeB64Chunks rest
  | [a, b, c] => [a * 4 + b / 16, b % 16 * 16 + c / 4]
  | [a, b] => [a * 4 + b / 16]
  | [_] => []
  | [] => []

/-- ASCII whitespace stripped by forgiving-base64. -/
def isB64Ws (c : Char) : Bool :=
  c = ' ' || c = '\t' || c = '\n' || c = '\x0c' || c = '\r'

/-- Remove up to two trailing `=` padding characters. -/
def stripTrailingEq (cs : List Char) : List Char :=
  match cs.reverse with
  | '=' :: '=' :: r => r.reverse
  | '=' :: r => r.reverse
  | _ => cs

/-- Embedding of `decode`: `atob` (forgiving-base64 to a binary string, which
throws on malformed input, modelled as `none`) followed by `charCodeAt` into
a byte list. -/
def decode (base64 : String) : Option (List Nat) :=
  let cs := base64.toList.filter fun c => !isB64Ws c
  let cs := if cs.length % 4 = 0 then stripTrailingEq cs else cs
  if cs.length % 4 = 1 then none
  else (cs.mapM b64Val).map decodeB64Chunks

/-! ## Speech stage (`handleGenerate`, step 5 loop) -/

/-- Source `el.elements.find(e => e.type === 'dialogue')?.content || ''`. -/
def dialogueTextOf (elements : List DialogueElement) : String :=
  ((elements.find? fun e => e.kind == DKind.dialogue).map (·.content)).getD ""

/-- Source `el.elements.find(e => e.type === 'parenthetical')?.content`. -/
def parentheticalOf (elements : List DialogueElement) : Option String :=
  (elements.find? fun e => e.kind == DKind.parenthetical).map (·.content)

/-- The text sent to speech synthesis: the dialogue text, with the
parenthetical (when present and non-empty, i.e. truthy) as a tonal instruction. -/
def promptTextOf (elements : List DialogueElement) : String :=
  let dialogueText := dialogueTextOf elements
  match parentheticalOf elements with
  | some p =>
      if p = "" then dialogueText
      else "(speaking in a " ++ p ++ " tone) " ++ dialogueText
  | none => dialogueText

/-- Structure `GeneratedAudio` from src/types.ts; the blob is the encoded WAV bytes. -/
structure GeneratedAudio where
  sceneIndex : Nat
  audioBlob : List Nat
  duration : ℚ
  character : String
  dialogue : String
  deriving DecidableEq, Repr

/-- The character and nested elements of a dialogue block. -/
def SceneElement.blockParts : SceneElement → String × List DialogueElement
  | .dialogue_block ch es => (ch, es)
  | _ => ("", [])

/-- Source `script.scene_elements.map((el, index) => (..el, index..)).filter(el.type
=== 'dialogue_block')`: the dialogue blocks with their original indices. -/
def dialogueBlocksOf (els : List SceneElement) :
    List (Nat × String × List DialogueElement) :=
  (els.enum.filter fun p => p.2.isDialogueBlock).map fun p => (p.1, p.2.blockParts)

/-- The speech loop.  `tts` abstracts `generateSpeech` (prompt text and voice
name to a base64 payload); a failed base64 decode aborts the run (`none`);
blocks with empty dialogue text are skipped by `continue`. -/
def audioGo (tts : String → String → String) (voices : List (String × String)) :
    List (Nat × String × List DialogueElement) → Option (List GeneratedAudio)
  | [] => some []
  | (index, ch, elements) :: rest =>
      let dialogueText := dialogueTextOf elements
      if dialogueText = "" then audioGo tts voices rest
      else
        match decode (tts (promptTextOf elements) ((voices.lookup ch).getD "")) with
        | none => none
        | some pcmData =>
            (audioGo tts voices rest).map fun clips =>
              { sceneIndex := index
                audioBlob := pcmToWav pcmData SAMPLE_RATE 1 16
                duration := (pcmData.length : ℚ) / (SAMPLE_RATE * 2)
                character := ch
                dialogue := dialogueText } :: clips

/-- The whole speech stage over a script. -/
def audioStage (tts : String → String → String)
    (voices : List (String × String)) (els : List SceneElement) :
    Option (List GeneratedAudio) :=
  audioGo tts voices (dialogueBlocksOf els)

/-! ## Image stage (`handleGenerate`, step 4 loop) -/

/-- Structure `GeneratedImage` from src/types.ts. -/
structure GeneratedImage where
  sceneIndex : Nat
  imageUrl : String
  deriving DecidableEq, Repr

/-- Build one image URL: `promptOrac` abstracts `createImagePromptFromAction`
(speaker and action text to a prompt), `imgOrac` abstracts `generateImage`
(final prompt to a base64 image); a reference image for the normalized
speaker name rewrites the prompt for visual consistency. -/
def mkImageUrl (promptOrac : String → String → String)
    (imgOrac : String → String) (characterImages : List (String × String))
    (speaker content : String) : String :=
  let imagePromptText := promptOrac speaker content
  let finalImagePrompt :=
    if (characterImages.lookup speaker.toLower.trim).isSome then
      "Use the character from the input image. Place them in this scene, matching the existing art style: " ++
        imagePromptText
    else imagePromptText
  "data:image/png;base64," ++ imgOrac finalImagePrompt

/-- The `content` of a scene element (`''` for a dialogue block, whose
interface has no content field). -/
def SceneElement.contentOf : SceneElement → String
  | .scene_heading c => c
  | .action c => c
  | .transition c => c
  | .dialogue_block _ _ => ""

/-- The image loop: same carried-over speaker scan as `attributeGo`, pushing
one `GeneratedImage` per processed Action. -/
def imageGo (mkUrl : String → String → String) (els : List SceneElement) :
    String → List (Nat × SceneElement) → List GeneratedImage
  | _, [] => []
  | lastCharacter, (sceneIndex, el) :: rest =>
      let c := match lastDialogueCharacter (els.take sceneIndex) with
        | some ch => ch
        | none => lastCharacter
      { sceneIndex := sceneIndex, imageUrl := mkUrl c el.contentOf } ::
        imageGo mkUrl els c rest

/-- The whole image stage over a script. -/
def imageStage (promptOrac : String → String → String)
    (imgOrac : String → String) (characterImages : List (String × String))
    (els : List SceneElement) : List GeneratedImage :=
  imageGo (mkImageUrl promptOrac imgOrac characterImages) els "A character"
    (scenesWithAction els)

/-! ## Asset bundler (`handleDownloadZip`) -/

/-- Source `String(n).padStart(4, '0')`. -/
def pad4 (n : Nat) : String :=
  String.mk (List.replicate (4 - (toString n).length) '0') ++ toString n

/-- The file name of a generated image inside the `images` folder. -/
def imageFileName (img : GeneratedImage) : String :=
  pad4 img.sceneIndex ++ ".png"

/-- The file name of a generated audio clip inside the `audio` folder. -/
def audioFileName (a : GeneratedAudio) : String :=
  pad4 a.sceneIndex ++ ".wav"

/-- The archive entry names produced by `handleDownloadZip`, in insertion
order: the two fixed files, one `images/` entry per generated image, and
(when any audio exists — the loop is guarded by `generatedAudio.length > 0`)
one `audio/` entry per clip. -/
def zipEntryNames (images : List GeneratedImage) (audio : List GeneratedAudio) :
    List String :=
  ["script.json", "story.txt"] ++
  images.map (fun img => "images/" ++ imageFileName img) ++
  (if audio.length > 0 then audio.map (fun a => "audio/" ++ audioFileName a)
   else [])

/-- The spec's end-to-end demo script: an Action before any dialogue, a
dialogue block for URSULA, then another Action. -/
def demoScript : List SceneElement :=
  [.action "An empty street.",
   .dialogue_block "URSULA" [⟨DKind.dialogue, "Hello."⟩],
   .action "URSULA waves."]

/-- A demo script whose first dialogue block has no dialogue text at all. -/
def skipDemoScript : List SceneElement :=
  [.dialogue_block "A" [],
   .dialogue_block "B" [⟨DKind.dialogue, "Hi"⟩]]

/-- A list has no dialogue block iff `lastDialogueCharacter` finds none. -/
theorem lastDialogueCharacter_eq_none_iff (l : List SceneElement) :
    lastDialogueCharacter l = none ↔
      ∀ x ∈ l, x.isDialogueBlock = false := by
  unfold lastDialogueCharacter
  constructor
  · intro h x hx
    by_contra hdb
    simp only [Bool.not_eq_false] at hdb
    have hne : l.filter (fun el => el.isDialogueBlock) ≠ [] := by
      intro hnil
      have := List.mem_filter.2 ⟨hx, hdb⟩
      rw [hnil] at this
      exact absurd this (List.not_mem_nil _)
    obtain ⟨el, hel⟩ := Option.ne_none_iff_exists'.1
      (mt List.getLast?_eq_none_iff.1 hne)
    have hmem : el ∈ l.filter (fun el => el.isDialogueBlock) := by
      obtain ⟨hne', heq⟩ := List.mem_getLast?_eq_getLast (Option.mem_def.2 hel)
      rw [heq]
      exact List.getLast_mem hne'
    have hed : el.isDialogueBlock := (List.mem_filter.1 hmem).2
    rw [hel] at h
    cases el with
    | dialogue_block ch es => simp [SceneElement.characterOf?] at h
    | scene_heading c => simp [SceneElement.isDialogueBlock] at hed
    | action c => simp [SceneElement.isDialogueBlock] at hed
    | transition c => simp [SceneElement.isDialogueBlock] at hed
  · intro h
    have : l.filter (fun el => el.isDialogueBlock) = [] :=
      List.filter_eq_nil_iff.2 (by simpa using h)
    rw [this]
    rfl

/-- If a longer prefix of the script contains no dialogue block, neither does
a shorter one. -/
theorem lastDialogueCharacter_take_mono (els : List SceneElement) {i j : Nat}
    (hij : i ≤ j) (hj : lastDialogueCharacter (els.take j) = none) :
    lastDialogueCharacter (els.take i) = none := by
  rw [lastDialogueCharacter_eq_none_iff] at hj ⊢
  intro x hx
  apply hj
  have : els.take i = (els.take j).take i := by
    rw [List.take_take, Nat.min_eq_left hij]
  rw [this] at hx
  exact List.take_subset _ _ hx

/-- The indices of `scenesWithAction` are strictly increasing. -/
theorem scenesWithAction_pairwise (els : List SceneElement) :
    (scenesWithAction els).Pairwise (fun a b => a.1 < b.1) := by
  have henum : els.enum.Pairwise (fun a b => a.1 < b.1) := by
    have : (els.enum.map Prod.fst).Pairwise (· < ·) := by
      rw [List.enum_map_fst]
      exact List.pairwise_lt_range _
    exact (List.pairwise_map).1 this
  exact henum.sublist (List.filter_sublist _)

/-- Core invariant of the carried-over speaker: with a sorted index list and a
carry that is the sentinel whenever a processed prefix is dialogue-free, every
produced speaker is the nearest preceding dialogue character, with the
sentinel as fallback. -/
theorem attributeGo_spec (els : List SceneElement) :
    ∀ (ps : List (Nat × SceneElement)) (acc : String),
      ps.Pairwise (fun a b => a.1 < b.1) →
      (∀ p ∈ ps, lastDialogueCharacter (els.take p.1) = none →
        acc = "A character") →
      ∀ q ∈ attributeGo els acc ps,
        q.2 = (lastDialogueCharacter (els.take q.1)).getD "A character" := by
  intro ps
  induction ps with
  | nil => intro acc _ _ q hq; simp [attributeGo] at hq
  | cons p rest ih =>
    intro acc hpair hacc q hq
    obtain ⟨i, el⟩ := p
    rw [attributeGo] at hq
    rcases List.mem_cons.1 hq with hq | hq
    · subst hq
      cases hldc : lastDialogueCharacter (els.take i) with
      | none =>
        simp only [hldc, Option.getD_none]
        exact hacc (i, el) (List.mem_cons_self _ _) hldc
      | some ch => simp [hldc]
    · refine ih _ (List.Pairwise.of_cons hpair) ?_ q hq
      intro r hr hnone
      have hlt : i < r.1 := (List.pairwise_cons.1 hpair).1 r hr
      have hinone : lastDialogueCharacter (els.take i) = none :=
        lastDialogueCharacter_take_mono els (Nat.le_of_lt hlt) hnone
      rw [hinone]
      exact hacc (i, el) (List.mem_cons_self _ _) hinone

/-! ### Voice-assignment lemmas -/

/-- Keys of the male round-robin table are exactly the listed names. -/
theorem lookup_maleRoundRobin_isSome (n : String) :
    ∀ (ds : List String) (k : Nat),
      ((maleRoundRobin k ds).lookup n).isSome = true ↔ n ∈ ds := by
  intro ds
  induction ds with
  | nil => intro k; simp [maleRoundRobin]
  | cons d ds ih =>
    intro k
    by_cases hnd : n = d
    · subst hnd; simp [maleRoundRobin, List.lookup]
    · have hbeq : (n == d) = false := beq_eq_false_iff_ne.2 hnd
      simp only [maleRoundRobin, List.lookup, hbeq, List.mem_cons]
      simp [ih, hnd]

/-- Extending the round-robin table by one fresh name appends one entry whose
voice index is the running male cursor. -/
theorem maleRoundRobin_append (n : String) :
    ∀ (ds : List String) (k : Nat),
      maleRoundRobin k (ds ++ [n]) =
        maleRoundRobin k ds ++
          [(n, MALE_VOICES.getD ((k + ds.length) % MALE_VOICES.length) "")] := by
  intro ds
  induction ds with
  | nil => intro k; simp [maleRoundRobin]
  | cons d ds ih =>
    intro k
    show (d, MALE_VOICES.getD (k % MALE_VOICES.length) "") ::
        maleRoundRobin (k + 1) (ds ++ [n]) =
      maleRoundRobin k (d :: ds) ++
        [(n, MALE_VOICES.getD ((k + (d :: ds).length) % MALE_VOICES.length) "")]
    rw [ih (k + 1)]
    have h2 : k + 1 + ds.length = k + (d :: ds).length := by
      rw [List.length_cons]; omega
    rw [h2]
    rfl

/-- The function `firstSeenGo` produces distinct names, none of them already seen. -/
theorem firstSeenGo_nodup :
    ∀ (l seen : List String),
      (firstSeenGo seen l).Nodup ∧ ∀ x ∈ firstSeenGo seen l, x ∉ seen := by
  intro l
  induction l with
  | nil => intro seen; simp [firstSeenGo]
  | cons c cs ih =>
    intro seen
    by_cases hc : c ∈ seen
    · rw [firstSeenGo, if_pos hc]
      exact ih seen
    · rw [firstSeenGo, if_neg hc]
      obtain ⟨hnd, hmem⟩ := ih (seen ++ [c])
      refine ⟨List.nodup_cons.2 ⟨fun hin => ?_, hnd⟩, ?_⟩
      · exact hmem c hin (by simp)
      · intro x hx
        rcases List.mem_cons.1 hx with rfl | hx
        · exact hc
        · intro hxs
          exact hmem x hx (List.mem_append_left _ hxs)

/-- In-range `getD` is a member. -/
theorem getD_mem_of_lt {α : Type} (l : List α) (k : Nat) (d : α)
    (hk : k < l.length) : l.getD k d ∈ l := by
  rw [List.getD_eq_getElem l d hk]
  exact List.getElem_mem hk

/-- Looking up the `k`-th of a list of distinct names in its round-robin
table yields the cursor-offset male voice. -/
theorem lookup_maleRoundRobin_getD :
    ∀ (ds : List String) (k start : Nat), ds.Nodup → k < ds.length →
      (maleRoundRobin start ds).lookup (ds.getD k "") =
        some (MALE_VOICES.getD ((start + k) % MALE_VOICES.length) "") := by
  intro ds
  induction ds with
  | nil => intro k start _ hk; simp at hk
  | cons d ds ih =>
    intro k start hnd hk
    cases k with
    | zero => simp [maleRoundRobin, List.lookup]
    | succ k =>
      have hk' : k < ds.length := by simpa using hk
      have hne : ds.getD k "" ≠ d := by
        intro he
        exact (List.nodup_cons.1 hnd).1 (he ▸ getD_mem_of_lt ds k "" hk')
      have : (d :: ds).getD (k + 1) "" = ds.getD k "" := by
        simp [List.getD]
      have hbeq : (ds.getD k "" == d) = false := beq_eq_false_iff_ne.2 hne
      rw [this, maleRoundRobin, List.lookup]
      simp only [hbeq]
      rw [ih k (start + 1) (List.nodup_cons.1 hnd).2 hk']
      have harith : start + 1 + k = start + (k + 1) := by omega
      rw [harith]

/-- Appending a fresh entry to an association list makes it found. -/
theorem lookup_append_fresh {β : Type} (n : String) (v : β) :
    ∀ (l : List (String × β)), l.lookup n = none →
      (l ++ [(n, v)]).lookup n = some v := by
  intro l
  induction l with
  | nil => intro _; simp [List.lookup]
  | cons p l ih =>
    intro h
    rw [List.lookup] at h
    rw [List.cons_append, List.lookup]
    cases hbeq : n == p.1 with
    | true => rw [hbeq] at h; simp at h
    | false => rw [hbeq] at h; exact ih h

/-- A successful lookup is a member of the association list. -/
theorem mem_of_lookup_eq_some {β : Type} (n : String) (v : β) :
    ∀ (l : List (String × β)), l.lookup n = some v → (n, v) ∈ l := by
  intro l
  induction l with
  | nil => intro h; simp [List.lookup] at h
  | cons p l ih =>
    intro h
    obtain ⟨p1, p2⟩ := p
    rw [List.lookup] at h
    cases hbeq : n == p1 with
    | true =>
      simp only [hbeq, Option.some.injEq] at h
      have hn : n = p1 := beq_iff_eq.1 hbeq
      subst hn
      subst h
      exact List.mem_cons_self _ _
    | false =>
      simp only [hbeq] at h
      exact List.mem_cons.2 (Or.inr (ih h))

/-- The all-male fold: when gender inference finds nothing for any processed
name, the loop fills the voice table round-robin from the male pool and never
touches the female cursor. -/
theorem assignFold_all_none (charactersText : String) :
    ∀ (names ds : List String) (f0 : Nat),
      (∀ n ∈ names, genderFromPremise charactersText n = none) →
      names.foldl (assignStep charactersText)
          ⟨maleRoundRobin 0 ds, [], ds.length, f0⟩ =
        ⟨maleRoundRobin 0 (ds ++ firstSeenGo ds names), [],
          (ds ++ firstSeenGo ds names).length, f0⟩ := by
  intro names
  induction names with
  | nil => intro ds f0 _; simp [firstSeenGo]
  | cons n ns ih =>
    intro ds f0 h
    rw [List.foldl_cons]
    by_cases hmem : n ∈ ds
    · have hsome : ((maleRoundRobin 0 ds).lookup n).isSome = true :=
        (lookup_maleRoundRobin_isSome n ds 0).2 hmem
      have hstep : assignStep charactersText
          ⟨maleRoundRobin 0 ds, [], ds.length, f0⟩ n =
          ⟨maleRoundRobin 0 ds, [], ds.length, f0⟩ := by
        rw [assignStep]
        simp only [hsome, if_true]
      rw [hstep, ih ds f0 (fun m hm => h m (List.mem_cons_of_mem _ hm)),
        firstSeenGo, if_pos hmem]
    · have hnone : ((maleRoundRobin 0 ds).lookup n).isSome = false := by
        rw [Bool.eq_false_iff]
        intro hsome
        exact hmem ((lookup_maleRoundRobin_isSome n ds 0).1 hsome)
      have hg : genderFromPremise charactersText n = none :=
        h n (List.mem_cons_self _ _)
      have hstep : assignStep charactersText
          ⟨maleRoundRobin 0 ds, [], ds.length, f0⟩ n =
          ⟨maleRoundRobin 0 (ds ++ [n]), [], (ds ++ [n]).length, f0⟩ := by
        rw [assignStep]
        simp only [hnone, Bool.false_eq_true, if_false]
        rw [hg]
        simp only [List.lookup_nil, Option.isSome_none, Bool.false_eq_true,
          if_false]
        rw [if_neg (by simp)]
        rw [maleRoundRobin_append n ds 0]
        simp
      rw [hstep, ih (ds ++ [n]) f0 (fun m hm => h m (List.mem_cons_of_mem _ hm)),
        firstSeenGo, if_neg hmem]
      simp

/-- One step preserves the invariant: the gender cache only holds inference
results, and female voice-table entries trace back to a confident female
inference. -/
theorem assignStep_invariant (charactersText : String) (s : VoiceState)
    (n : String)
    (hg : ∀ pr ∈ s.assignedGenders,
      genderFromPremise charactersText pr.1 = some pr.2)
    (hv : ∀ pr ∈ s.characterVoices, pr.2 ∈ FEMALE_VOICES →
      genderFromPremise charactersText pr.1 = some Gender.female) :
    (∀ pr ∈ (assignStep charactersText s n).assignedGenders,
      genderFromPremise charactersText pr.1 = some pr.2) ∧
    (∀ pr ∈ (assignStep charactersText s n).characterVoices,
      pr.2 ∈ FEMALE_VOICES →
      genderFromPremise charactersText pr.1 = some Gender.female) := by
  rw [assignStep]
  by_cases hs : (s.characterVoices.lookup n).isSome = true
  · rw [if_pos hs]; exact ⟨hg, hv⟩
  · rw [if_neg hs]
    set genders :=
      if (s.assignedGenders.lookup n).isSome = true then s.assignedGenders
      else
        match genderFromPremise charactersText n with
        | some g => s.assignedGenders ++ [(n, g)]
        | none => s.assignedGenders with hgdef
    have hgenders : ∀ pr ∈ genders,
        genderFromPremise charactersText pr.1 = some pr.2 := by
      rw [hgdef]
      by_cases hgs : (s.assignedGenders.lookup n).isSome = true
      · rw [if_pos hgs]; exact hg
      · rw [if_neg hgs]
        cases hm : genderFromPremise charactersText n with
        | none => exact hg
        | some g =>
          intro pr hpr
          rcases List.mem_append.1 hpr with hpr | hpr
          · exact hg pr hpr
          · simp only [List.mem_singleton] at hpr
            rw [hpr]; exact hm
    by_cases hcond : genders.lookup n = some Gender.female ∧
        0 < FEMALE_VOICES.length
    · rw [if_pos hcond]
      refine ⟨hgenders, ?_⟩
      intro pr hpr hfem
      rcases List.mem_append.1 hpr with hpr | hpr
      · exact hv pr hpr hfem
      · simp only [List.mem_singleton] at hpr
        subst hpr
        exact hgenders (n, Gender.female)
          (mem_of_lookup_eq_some n Gender.female genders hcond.1)
    · rw [if_neg hcond]
      refine ⟨hgenders, ?_⟩
      intro pr hpr hfem
      rcases List.mem_append.1 hpr with hpr | hpr
      · exact hv pr hpr hfem
      · simp only [List.mem_singleton] at hpr
        subst hpr
        exfalso
        have hvM : MALE_VOICES.getD (s.maleVoiceIndex % MALE_VOICES.length) ""
            ∈ MALE_VOICES :=
          getD_mem_of_lt _ _ _ (Nat.mod_lt _ (by decide))
        simp only [FEMALE_VOICES, List.mem_singleton] at hfem
        rw [hfem] at hvM
        exact absurd hvM (by decide)

/-- The voice table's female entries always trace back to a confident female
gender inference, across the whole fold. -/
theorem assignFold_invariant (charactersText : String) :
    ∀ (names : List String) (s : VoiceState),
      (∀ pr ∈ s.assignedGenders,
        genderFromPremise charactersText pr.1 = some pr.2) →
      (∀ pr ∈ s.characterVoices, pr.2 ∈ FEMALE_VOICES →
        genderFromPremise charactersText pr.1 = some Gender.female) →
      (∀ pr ∈ (names.foldl (assignStep charactersText) s).assignedGenders,
        genderFromPremise charactersText pr.1 = some pr.2) ∧
      (∀ pr ∈ (names.foldl (assignStep charactersText) s).characterVoices,
        pr.2 ∈ FEMALE_VOICES →
        genderFromPremise charactersText pr.1 = some Gender.female) := by
  intro names
  induction names with
  | nil => intro s hg hv; exact ⟨hg, hv⟩
  | cons n ns ih =>
    intro s hg hv
    rw [List.foldl_cons]
    obtain ⟨hg', hv'⟩ := assignStep_invariant charactersText s n hg hv
    exact ih (assignStep charactersText s n) hg' hv'

end Storyboard

open Storyboard

/-- Claim C1: encoding `N` bytes of PCM at 24000 Hz, mono, 16-bit produces a
44-byte header followed by the payload; the `dataSize` field at offset 40
equals `N`, the `fileSize` field at offset 4 equals `36 + N`, the magic
strings, chunk size, PCM format tag, channel count, sample rate, byte rate,
block align and bit depth hold the stated values at the stated offsets with
the stated endianness, and decoding the 44 header bytes recovers the same
sample rate, channel count and bit depth. -/
theorem wav_encoder_layout_roundtrip (pcm : List Nat)
    (h : pcm.length + 36 < 4294967296) :
    (pcmToWav pcm 24000 1 16).length = 44 + pcm.length ∧
    (pcmToWav pcm 24000 1 16).drop 44 = pcm ∧
    (pcmToWav pcm 24000 1 16).take 4 = [0x52, 0x49, 0x46, 0x46] ∧
    readU32le (pcmToWav pcm 24000 1 16) 4 = 36 + pcm.length ∧
    ((pcmToWav pcm 24000 1 16).drop 8).take 4 = [0x57, 0x41, 0x56, 0x45] ∧
    ((pcmToWav pcm 24000 1 16).drop 12).take 4 = [0x66, 0x6d, 0x74, 0x20] ∧
    readU32le (pcmToWav pcm 24000 1 16) 16 = 16 ∧
    readU16le (pcmToWav pcm 24000 1 16) 20 = 1 ∧
    readU16le (pcmToWav pcm 24000 1 16) 22 = 1 ∧
    readU32le (pcmToWav pcm 24000 1 16) 24 = 24000 ∧
    readU32le (pcmToWav pcm 24000 1 16) 28 = 24000 * 1 * (16 / 8) ∧
    readU16le (pcmToWav pcm 24000 1 16) 32 = 1 * (16 / 8) ∧
    readU16le (pcmToWav pcm 24000 1 16) 34 = 16 ∧
    ((pcmToWav pcm 24000 1 16).drop 36).take 4 = [0x64, 0x61, 0x74, 0x61] ∧
    readU32le (pcmToWav pcm 24000 1 16) 40 = pcm.length ∧
    decodeWavHeader ((pcmToWav pcm 24000 1 16).take 44) =
      { sampleRate := 24000, numChannels := 1, bitsPerSample := 16 } := by
  have hw : pcmToWav pcm 24000 1 16 =
      [0x52, 0x49, 0x46, 0x46,
       (36 + pcm.length) % 256, (36 + pcm.length) / 256 % 256,
       (36 + pcm.length) / 65536 % 256, (36 + pcm.length) / 16777216 % 256,
       0x57, 0x41, 0x56, 0x45,
       0x66, 0x6d, 0x74, 0x20,
       16, 0, 0, 0,
       1, 0,
       1, 0,
       0xC0, 0x5D, 0, 0,
       0x80, 0xBB, 0, 0,
       2, 0,
       16, 0,
       0x64, 0x61, 0x74, 0x61,
       pcm.length % 256, pcm.length / 256 % 256,
       pcm.length / 65536 % 256, pcm.length / 16777216 % 256] ++ pcm := by
    simp [pcmToWav, u16le, u32le, u32be]
  rw [hw]
  refine ⟨by simp; omega, rfl, rfl, ?_, rfl, rfl, rfl, rfl, rfl, rfl, rfl, rfl,
    rfl, rfl, ?_, rfl⟩
  · refine Eq.trans (b := (36 + pcm.length) % 256 +
      256 * ((36 + pcm.length) / 256 % 256) +
      65536 * ((36 + pcm.length) / 65536 % 256) +
      16777216 * ((36 + pcm.length) / 16777216 % 256)) rfl (by omega)
  · refine Eq.trans (b := pcm.length % 256 +
      256 * (pcm.length / 256 % 256) +
      65536 * (pcm.length / 65536 % 256) +
      16777216 * (pcm.length / 16777216 % 256)) rfl (by omega)

/-- Claim C2: for every script, each Action element with non-empty content is
attributed the character of the nearest preceding dialogue block in the full
prefix before it, and the sentinel `'A character'` when no dialogue block
precedes it; in particular in a script with zero dialogue blocks every Action
element is attributed the sentinel. -/
theorem speaker_attribution_nearest_preceding (els : List SceneElement) :
    (∀ q ∈ attributeActions els,
      q.2 = (lastDialogueCharacter (els.take q.1)).getD "A character") ∧
    ((∀ el ∈ els, el.isDialogueBlock = false) →
      ∀ q ∈ attributeActions els, q.2 = "A character") := by
  have hmain : ∀ q ∈ attributeActions els,
      q.2 = (lastDialogueCharacter (els.take q.1)).getD "A character" :=
    attributeGo_spec els (scenesWithAction els) "A character"
      (scenesWithAction_pairwise els) (fun _ _ _ => rfl)
  refine ⟨hmain, fun hnone q hq => ?_⟩
  have h := hmain q hq
  have : lastDialogueCharacter (els.take q.1) = none := by
    rw [lastDialogueCharacter_eq_none_iff]
    exact fun x hx => hnone x (List.take_subset _ _ hx)
  rw [this] at h
  exact h

/-- Witness for C2 on the demo script: the second Action's attributed speaker
is URSULA, the nearest preceding dialogue character. -/
theorem speaker_attribution_nearest_preceding_witness :
    (lastDialogueCharacter (demoScript.take 2)).getD "A character" =
      "URSULA" := by
  have h := (speaker_attribution_nearest_preceding demoScript).1
    (2, "URSULA") (by decide)
  exact h.symm

/-- Claim C3: when no processed character has a gender marker in the premise
text, the k-th distinct character (first-seen order) receives the
`(k mod |male pool|)`-th male voice; in general a character is assigned a
female-pool voice only if its inferred gender is female (with the pool
non-empty), and each fresh assignment advances exactly the cursor of the pool
it drew from. -/
theorem voice_assignment_round_robin (els : List SceneElement)
    (charactersText : String) :
    ((∀ n ∈ charactersOf els, genderFromPremise charactersText n = none) →
      ∀ k, k < (firstSeen (charactersOf els)).length →
        (assignVoices els charactersText).characterVoices.lookup
            ((firstSeen (charactersOf els)).getD k "") =
          some (MALE_VOICES.getD (k % MALE_VOICES.length) "")) ∧
    (∀ n v,
      (assignVoices els charactersText).characterVoices.lookup n = some v →
      v ∈ FEMALE_VOICES →
      genderFromPremise charactersText n = some Gender.female) ∧
    (∀ (s : VoiceState) (n : String),
      (s.characterVoices.lookup n).isSome = false →
      ∃ v, (assignStep charactersText s n).characterVoices.lookup n = some v ∧
        ((v ∈ FEMALE_VOICES ∧
            (assignStep charactersText s n).femaleVoiceIndex =
              s.femaleVoiceIndex + 1 ∧
            (assignStep charactersText s n).maleVoiceIndex =
              s.maleVoiceIndex) ∨
         (v ∈ MALE_VOICES ∧
            (assignStep charactersText s n).maleVoiceIndex =
              s.maleVoiceIndex + 1 ∧
            (assignStep charactersText s n).femaleVoiceIndex =
              s.femaleVoiceIndex))) := by
  refine ⟨?_, ?_, ?_⟩
  · intro hnone k hk
    have hfold := assignFold_all_none charactersText (charactersOf els) [] 0
      hnone
    have hinit : (⟨maleRoundRobin 0 [], [], ([] : List String).length, 0⟩ :
        VoiceState) = initialVoiceState := rfl
    rw [hinit] at hfold
    have hvoices : (assignVoices els charactersText).characterVoices =
        maleRoundRobin 0 (firstSeen (charactersOf els)) := by
      rw [assignVoices, hfold]
      simp [firstSeen]
    rw [hvoices]
    have hnd : (firstSeen (charactersOf els)).Nodup :=
      (firstSeenGo_nodup (charactersOf els) []).1
    have := lookup_maleRoundRobin_getD (firstSeen (charactersOf els)) k 0 hnd hk
    rw [Nat.zero_add] at this
    exact this
  · intro n v hlk hfem
    have hinv := assignFold_invariant charactersText (charactersOf els)
      initialVoiceState (by intro pr hpr; simp [initialVoiceState] at hpr)
      (by intro pr hpr; simp [initialVoiceState] at hpr)
    exact hinv.2 (n, v)
      (mem_of_lookup_eq_some n v _ hlk) hfem
  · intro s n h
    have hnone : s.characterVoices.lookup n = none := by
      cases ho : s.characterVoices.lookup n with
      | none => rfl
      | some v => rw [ho] at h; simp at h
    have hs : ¬((s.characterVoices.lookup n).isSome = true) := by
      rw [h]; simp
    rw [assignStep, if_neg hs]
    set genders :=
      if (s.assignedGenders.lookup n).isSome = true then s.assignedGenders
      else
        match genderFromPremise charactersText n with
        | some g => s.assignedGenders ++ [(n, g)]
        | none => s.assignedGenders with hgdef
    by_cases hcond : genders.lookup n = some Gender.female ∧
        0 < FEMALE_VOICES.length
    · rw [if_pos hcond]
      refine ⟨FEMALE_VOICES.getD (s.femaleVoiceIndex % FEMALE_VOICES.length) "",
        ?_, Or.inl ⟨?_, rfl, rfl⟩⟩
      · exact lookup_append_fresh n _ s.characterVoices hnone
      · exact getD_mem_of_lt _ _ _ (Nat.mod_lt _ (by decide))
    · rw [if_neg hcond]
      refine ⟨MALE_VOICES.getD (s.maleVoiceIndex % MALE_VOICES.length) "",
        ?_, Or.inr ⟨?_, rfl, rfl⟩⟩
      · exact lookup_append_fresh n _ s.characterVoices hnone
      · exact getD_mem_of_lt _ _ _ (Nat.mod_lt _ (by decide))

/-- Witness for C3 on the demo script with an empty premise: URSULA, the
first (and only) distinct unmarked character, receives the first male voice. -/
theorem voice_assignment_round_robin_witness :
    (assignVoices demoScript "").characterVoices.lookup "URSULA" =
      some "Puck" := by
  have h := (voice_assignment_round_robin demoScript "").1 (by decide) 0
    (by decide)
  have h2 : (firstSeen (charactersOf demoScript)).getD 0 "" = "URSULA" := by
    decide
  have h3 : MALE_VOICES.getD (0 % MALE_VOICES.length) "" = "Puck" := by decide
  rw [h2, h3] at h
  exact h

/-- Claim C4: voice assignment is deterministic — identical dialogue order and
premise text yield an identical character-to-voice mapping. -/
theorem voice_assignment_deterministic (els₁ els₂ : List SceneElement)
    (charactersText₁ charactersText₂ : String) (hels : els₁ = els₂)
    (htext : charactersText₁ = charactersText₂) :
    assignVoices els₁ charactersText₁ = assignVoices els₂ charactersText₂ := by
  rw [hels, htext]

/-- Witness for C4 at the demo script. -/
theorem voice_assignment_deterministic_witness :
    assignVoices demoScript "URSULA (f)" =
      assignVoices demoScript "URSULA (f)" :=
  voice_assignment_deterministic demoScript demoScript "URSULA (f)"
    "URSULA (f)" rfl rfl

/-- Every joined element occurs inside the join, as a character substring. -/
theorem joinWith_mem_substring (sep : String) :
    ∀ (l : List String) (x : String), x ∈ l →
      ∃ before after, (joinWith sep l).toList = before ++ x.toList ++ after := by
  intro l
  induction l with
  | nil => intro x hx; simp at hx
  | cons y ys ih =>
    intro x hx
    cases ys with
    | nil =>
      simp only [List.mem_singleton] at hx
      subst hx
      exact ⟨[], [], by simp [joinWith]⟩
    | cons z zs =>
      have hjoin : joinWith sep (y :: z :: zs) =
          y ++ sep ++ joinWith sep (z :: zs) := rfl
      rcases List.mem_cons.1 hx with rfl | hx
      · refine ⟨[], sep.toList ++ (joinWith sep (z :: zs)).toList, ?_⟩
        simp [hjoin, String.toList, String.data_append]
      · obtain ⟨b, a, hba⟩ := ih x hx
        refine ⟨y.toList ++ sep.toList ++ b, a, ?_⟩
        simp [hjoin, String.toList, String.data_append]
        rw [show (joinWith sep (z :: zs)).data =
          (joinWith sep (z :: zs)).toList from rfl, hba]
        simp [String.toList]

/-- In every branch that fails, the surfaced message is the aggregate message
over the collected failed-feed entries. -/
theorem fetchStoryElements_error_message (rc rs rt : Except String String)
    (msg : String) (hmsg : fetchStoryElements rc rs rt = Except.error msg) :
    msg = aggregateErrorMessage (failedFeeds rc rs rt) := by
  rcases rc with e | c <;> rcases rs with e2 | s <;> rcases rt with e3 | t <;>
    simp [fetchStoryElements] at hmsg <;> exact hmsg.symm

/-- Claim C5: fetching story elements fails iff at least one of the three
premise feeds fails; each failed feed contributes its named entry (feed name
and reason) to the list embedded in the surfaced message; with characters and
story succeeding and today failing, the failed-entry list is exactly the one
`today` entry; on success all three values are returned. -/
theorem fetch_story_elements_aggregation (rc rs rt : Except String String) :
    ((∃ msg, fetchStoryElements rc rs rt = Except.error msg) ↔
      ((∃ e, rc = Except.error e) ∨ (∃ e, rs = Except.error e) ∨
        (∃ e, rt = Except.error e))) ∧
    (∀ ec, rc = Except.error ec →
      failedFeedEntry "characters" ec ∈ failedFeeds rc rs rt) ∧
    (∀ es, rs = Except.error es →
      failedFeedEntry "story" es ∈ failedFeeds rc rs rt) ∧
    (∀ et, rt = Except.error et →
      failedFeedEntry "today" et ∈ failedFeeds rc rs rt) ∧
    (∀ msg, fetchStoryElements rc rs rt = Except.error msg →
      ∀ entry ∈ failedFeeds rc rs rt,
        ∃ before after, msg.toList = before ++ entry.toList ++ after) ∧
    (∀ c s et, rc = Except.ok c → rs = Except.ok s → rt = Except.error et →
      failedFeeds rc rs rt = [failedFeedEntry "today" et]) ∧
    (∀ c s t, rc = Except.ok c → rs = Except.ok s → rt = Except.ok t →
      fetchStoryElements rc rs rt = Except.ok ⟨c, s, t⟩) := by
  refine ⟨?_, ?_, ?_, ?_, ?_, ?_, ?_⟩
  · rcases rc with e | c <;> rcases rs with e2 | s <;> rcases rt with e3 | t <;>
      simp [fetchStoryElements]
  · intro ec hec; subst hec; simp [failedFeeds]
  · intro es hes; subst hes
    rcases rc with e | c <;> simp [failedFeeds]
  · intro et het; subst het
    rcases rc with e | c <;> rcases rs with e2 | s <;> simp [failedFeeds]
  · intro msg hmsg entry hentry
    have h := fetchStoryElements_error_message rc rs rt msg hmsg
    subst h
    obtain ⟨b, a, hba⟩ :=
      joinWith_mem_substring "\n- " (failedFeeds rc rs rt) entry hentry
    refine ⟨("Could not fetch all story elements. Please check your connection or try again later. \n\nFailed feeds:\n- ").toList ++ b,
      a, ?_⟩
    rw [aggregateErrorMessage]
    simp only [String.toList, String.data_append]
    rw [show (joinWith "\n- " (failedFeeds rc rs rt)).data =
      (joinWith "\n- " (failedFeeds rc rs rt)).toList from rfl, hba]
    simp [String.toList]
  · intro c s et hc hs het
    subst hc; subst hs; subst het
    simp [failedFeeds]
  · intro c s t hc hs ht
    subst hc; subst hs; subst ht
    rfl

/-- Witness for C5: the spec's partial-failure scenario — characters and
story succeed, today fails with "503"; the failed-entry list is exactly the
today entry. -/
theorem fetch_story_elements_aggregation_witness :
    failedFeeds (Except.ok "A") (Except.ok "B") (Except.error "503") =
      [failedFeedEntry "today" "503"] :=
  (fetch_story_elements_aggregation (Except.ok "A") (Except.ok "B")
      (Except.error "503")).2.2.2.2.2.1 "A" "B" "503" rfl rfl rfl

/-- Enumeration indices are strictly increasing. -/
theorem enum_fst_pairwise {α : Type} (l : List α) :
    l.enum.Pairwise (fun a b => a.1 < b.1) := by
  have h : (l.enum.map Prod.fst).Pairwise (· < ·) := by
    rw [List.enum_map_fst]
    exact List.pairwise_lt_range _
  exact (List.pairwise_map).1 h

/-- The scene indices of the dialogue blocks are strictly increasing. -/
theorem dialogueBlocksOf_fst_pairwise (els : List SceneElement) :
    ((dialogueBlocksOf els).map (·.1)).Pairwise (· < ·) := by
  rw [List.pairwise_map, dialogueBlocksOf, List.pairwise_map]
  exact (enum_fst_pairwise els).sublist (List.filter_sublist _)

/-- The produced clips' scene indices are exactly those of the
non-empty-dialogue blocks, in order. -/
theorem audioGo_some_map_fst (tts : String → String → String)
    (voices : List (String × String)) :
    ∀ (blocks : List (Nat × String × List DialogueElement))
      (clips : List GeneratedAudio),
      audioGo tts voices blocks = some clips →
      clips.map (·.sceneIndex) =
        (blocks.filter fun b => dialogueTextOf b.2.2 != "").map (·.1) := by
  intro blocks
  induction blocks with
  | nil =>
    intro clips h
    simp only [audioGo, Option.some.injEq] at h
    subst h
    rfl
  | cons b rest ih =>
    obtain ⟨i, ch, es⟩ := b
    intro clips h
    rw [audioGo] at h
    by_cases hdt : dialogueTextOf es = ""
    · rw [if_pos hdt] at h
      have hfalse : (dialogueTextOf es != "") = false := by simp [hdt]
      rw [List.filter_cons, hfalse]
      simp only [Bool.false_eq_true, if_false]
      exact ih clips h
    · rw [if_neg hdt] at h
      cases hdec : decode (tts (promptTextOf es) ((voices.lookup ch).getD ""))
        with
      | none => rw [hdec] at h; simp at h
      | some pcmData =>
        rw [hdec] at h
        simp only [] at h
        obtain ⟨clips', hrest, hclips⟩ := Option.map_eq_some'.1 h
        subst hclips
        have htrue : (dialogueTextOf es != "") = true := by simp [hdt]
        rw [List.filter_cons, htrue]
        simp only [if_true, List.map_cons]
        rw [ih clips' hrest]

/-- Under total decode success the speech loop cannot fail. -/
theorem audioGo_total (tts : String → String → String)
    (voices : List (String × String))
    (hdec : ∀ p v, (decode (tts p v)).isSome = true) :
    ∀ blocks, ∃ clips, audioGo tts voices blocks = some clips := by
  intro blocks
  induction blocks with
  | nil => exact ⟨[], rfl⟩
  | cons b rest ih =>
    obtain ⟨i, ch, es⟩ := b
    obtain ⟨clips', hrest⟩ := ih
    rw [audioGo]
    by_cases hdt : dialogueTextOf es = ""
    · rw [if_pos hdt]; exact ⟨clips', hrest⟩
    · rw [if_neg hdt]
      cases hd : decode (tts (promptTextOf es) ((voices.lookup ch).getD ""))
        with
      | none =>
        have := hdec (promptTextOf es) ((voices.lookup ch).getD "")
        rw [hd] at this
        simp at this
      | some pcm =>
        exact ⟨_, by rw [hrest]; rfl⟩

/-- Every produced clip comes from exactly one non-empty-dialogue block of
the input, with its fields built from that block's first dialogue line and
the decoded payload. -/
theorem audioGo_clips_shape (tts : String → String → String)
    (voices : List (String × String)) :
    ∀ blocks clips, audioGo tts voices blocks = some clips →
      ∀ clip ∈ clips, ∃ i ch es pcmData,
        (i, ch, es) ∈ blocks ∧ dialogueTextOf es ≠ "" ∧
        decode (tts (promptTextOf es) ((voices.lookup ch).getD "")) =
          some pcmData ∧
        clip = { sceneIndex := i
                 audioBlob := pcmToWav pcmData SAMPLE_RATE 1 16
                 duration := (pcmData.length : ℚ) / (SAMPLE_RATE * 2)
                 character := ch
                 dialogue := dialogueTextOf es } := by
  intro blocks
  induction blocks with
  | nil =>
    intro clips h clip hclip
    simp only [audioGo, Option.some.injEq] at h
    subst h
    simp at hclip
  | cons b rest ih =>
    obtain ⟨i, ch, es⟩ := b
    intro clips h clip hclip
    rw [audioGo] at h
    by_cases hdt : dialogueTextOf es = ""
    · rw [if_pos hdt] at h
      obtain ⟨i', ch', es', pcm', hmem, hrest⟩ := ih clips h clip hclip
      exact ⟨i', ch', es', pcm', List.mem_cons_of_mem _ hmem, hrest⟩
    · rw [if_neg hdt] at h
      cases hdec : decode (tts (promptTextOf es) ((voices.lookup ch).getD ""))
        with
      | none => rw [hdec] at h; simp at h
      | some pcmData =>
        rw [hdec] at h
        simp only [] at h
        obtain ⟨clips', hrest, hclips⟩ := Option.map_eq_some'.1 h
        subst hclips
        rcases List.mem_cons.1 hclip with hclip | hclip
        · exact ⟨i, ch, es, pcmData, List.mem_cons_self _ _, hdt, hdec, hclip⟩
        · obtain ⟨i', ch', es', pcm', hmem, hrest'⟩ := ih clips' hrest clip hclip
          exact ⟨i', ch', es', pcm', List.mem_cons_of_mem _ hmem, hrest'⟩

/-- The images' scene indices are exactly the processed action indices. -/
theorem imageGo_map_fst (mkUrl : String → String → String)
    (els : List SceneElement) :
    ∀ (ps : List (Nat × SceneElement)) (acc : String),
      (imageGo mkUrl els acc ps).map (·.sceneIndex) = ps.map (·.1) := by
  intro ps
  induction ps with
  | nil => intro acc; rfl
  | cons p rest ih =>
    intro acc
    obtain ⟨i, el⟩ := p
    rw [imageGo]
    simp only [List.map_cons]
    rw [ih]

/-- Every generated image's index comes from a processed action pair. -/
theorem imageGo_mem_fst (mkUrl : String → String → String)
    (els : List SceneElement) :
    ∀ (ps : List (Nat × SceneElement)) (acc : String),
      ∀ img ∈ imageGo mkUrl els acc ps, ∃ p ∈ ps, img.sceneIndex = p.1 := by
  intro ps
  induction ps with
  | nil => intro acc img h; simp [imageGo] at h
  | cons p rest ih =>
    intro acc img h
    obtain ⟨i, el⟩ := p
    rw [imageGo] at h
    rcases List.mem_cons.1 h with h | h
    · exact ⟨(i, el), List.mem_cons_self _ _, by rw [h]⟩
    · obtain ⟨p', hp', heq⟩ := ih _ img h
      exact ⟨p', List.mem_cons_of_mem _ hp', heq⟩

/-- Membership in `dialogueBlocksOf` identifies the original scene element. -/
theorem mem_dialogueBlocksOf (els : List SceneElement) (i : Nat) (ch : String)
    (es : List DialogueElement) (h : (i, ch, es) ∈ dialogueBlocksOf els) :
    els[i]? = some (SceneElement.dialogue_block ch es) := by
  rw [dialogueBlocksOf] at h
  obtain ⟨p, hp, heq⟩ := List.mem_map.1 h
  have hfil := List.mem_filter.1 hp
  have hget : els[p.1]? = some p.2 :=
    List.mem_enum_iff_getElem?.1 hfil.1
  cases hel : p.2 with
  | dialogue_block c e =>
    rw [hel] at heq
    simp only [SceneElement.blockParts, Prod.mk.injEq] at heq
    rw [← heq.1, hget, hel]
    rw [heq.2.1, heq.2.2]
  | scene_heading c => rw [hel] at hfil; simp [SceneElement.isDialogueBlock] at hfil
  | action c => rw [hel] at hfil; simp [SceneElement.isDialogueBlock] at hfil
  | transition c => rw [hel] at hfil; simp [SceneElement.isDialogueBlock] at hfil

/-- Claim C6: dialogue blocks with empty dialogue text (no Dialogue element,
or an empty first Dialogue element) are skipped without error, and every
other dialogue block yields exactly one clip, in document order: when speech
synthesis always returns decodable audio, the run succeeds and the clips'
scene indices are exactly those of the non-empty-dialogue blocks. -/
theorem empty_dialogue_blocks_skipped (tts : String → String → String)
    (voices : List (String × String)) (els : List SceneElement)
    (hdec : ∀ p v, (decode (tts p v)).isSome = true) :
    ∃ clips, audioStage tts voices els = some clips ∧
      clips.map (·.sceneIndex) =
        ((dialogueBlocksOf els).filter fun b =>
          dialogueTextOf b.2.2 != "").map (·.1) := by
  obtain ⟨clips, hclips⟩ := audioGo_total tts voices hdec (dialogueBlocksOf els)
  exact ⟨clips, hclips,
    audioGo_some_map_fst tts voices (dialogueBlocksOf els) clips hclips⟩

/-- Witness for C6: a script whose first dialogue block is empty produces
exactly one clip, for the second block (scene index 1). -/
theorem empty_dialogue_blocks_skipped_witness :
    ∃ clips, audioStage (fun _ _ => "AAE=") [] skipDemoScript = some clips ∧
      clips.map (·.sceneIndex) = [1] := by
  obtain ⟨clips, h1, h2⟩ := empty_dialogue_blocks_skipped (fun _ _ => "AAE=")
    [] skipDemoScript
    (by intro p v; show (decode "AAE=").isSome = true; decide)
  refine ⟨clips, h1, ?_⟩
  rw [h2]
  decide

/-- Claim C7: archive entries are named by the artifact's zero-padded scene
index (0 ↦ 0000.png, 12 ↦ 0012.png, 137 ↦ 0137.png, and .wav for audio),
the name list is permutation-compatible with the artifact order (names depend
only on the artifacts, not the iteration position), and bundling with zero
images and zero audio clips succeeds with just the two fixed entries. -/
theorem zip_entry_naming (images₁ images₂ : List GeneratedImage)
    (audio : List GeneratedAudio) (hperm : images₁.Perm images₂) :
    (∀ url, imageFileName ⟨0, url⟩ = "0000.png" ∧
      imageFileName ⟨12, url⟩ = "0012.png" ∧
      imageFileName ⟨137, url⟩ = "0137.png") ∧
    (∀ blob dur ch dl, audioFileName ⟨0, blob, dur, ch, dl⟩ = "0000.wav" ∧
      audioFileName ⟨12, blob, dur, ch, dl⟩ = "0012.wav" ∧
      audioFileName ⟨137, blob, dur, ch, dl⟩ = "0137.wav") ∧
    (zipEntryNames images₁ audio).Perm (zipEntryNames images₂ audio) ∧
    zipEntryNames [] [] = ["script.json", "story.txt"] := by
  refine ⟨fun url => ⟨show pad4 0 ++ ".png" = "0000.png" by decide,
      show pad4 12 ++ ".png" = "0012.png" by decide,
      show pad4 137 ++ ".png" = "0137.png" by decide⟩,
    fun blob dur ch dl => ⟨show pad4 0 ++ ".wav" = "0000.wav" by decide,
      show pad4 12 ++ ".wav" = "0012.wav" by decide,
      show pad4 137 ++ ".wav" = "0137.wav" by decide⟩,
    ?_, rfl⟩
  rw [zipEntryNames, zipEntryNames]
  exact ((List.Perm.refl ["script.json", "story.txt"]).append
    (hperm.map _)).append (List.Perm.refl _)

/-- Witness for C7 on a two-image permutation. -/
theorem zip_entry_naming_witness :
    (zipEntryNames [⟨0, "u"⟩, ⟨12, "v"⟩] []).Perm
        (zipEntryNames [⟨12, "v"⟩, ⟨0, "u"⟩] []) ∧
      imageFileName ⟨137, ""⟩ = "0137.png" := by
  have h := zip_entry_naming [⟨0, "u"⟩, ⟨12, "v"⟩] [⟨12, "v"⟩, ⟨0, "u"⟩] []
    (by decide)
  exact ⟨h.2.2.1, (h.1 "").2.2⟩

/-- Claim C8: in the generated-image and generated-audio lists the scene
indices are strictly increasing (hence unique and monotonically
non-decreasing in generation order), and each index is the original position
of the corresponding Action element (non-empty content) or dialogue block
(with the clip carrying that block's character). -/
theorem scene_index_invariants (promptOrac : String → String → String)
    (imgOrac : String → String) (characterImages : List (String × String))
    (tts : String → String → String) (voices : List (String × String))
    (els : List SceneElement) :
    (((imageStage promptOrac imgOrac characterImages els).map
        (·.sceneIndex)).Pairwise (· < ·) ∧
      ∀ img ∈ imageStage promptOrac imgOrac characterImages els,
        ∃ c, els[img.sceneIndex]? = some (SceneElement.action c) ∧ c ≠ "") ∧
    (∀ clips, audioStage tts voices els = some clips →
      ((clips.map (·.sceneIndex)).Pairwise (· < ·) ∧
        ∀ clip ∈ clips, ∃ es, els[clip.sceneIndex]? =
          some (SceneElement.dialogue_block clip.character es))) := by
  refine ⟨⟨?_, ?_⟩, ?_⟩
  · rw [imageStage, imageGo_map_fst]
    rw [List.pairwise_map]
    exact scenesWithAction_pairwise els
  · intro img himg
    obtain ⟨p, hp, heq⟩ := imageGo_mem_fst _ els (scenesWithAction els)
      "A character" img himg
    have hfil := List.mem_filter.1 hp
    have hget : els[p.1]? = some p.2 :=
      List.mem_enum_iff_getElem?.1 hfil.1
    cases hel : p.2 with
    | action c =>
      refine ⟨c, ?_, ?_⟩
      · rw [heq, hget, hel]
      · have := hfil.2
        rw [hel] at this
        simpa [SceneElement.isNonEmptyAction] using this
    | scene_heading c =>
      have := hfil.2
      rw [hel] at this
      simp [SceneElement.isNonEmptyAction] at this
    | transition c =>
      have := hfil.2
      rw [hel] at this
      simp [SceneElement.isNonEmptyAction] at this
    | dialogue_block c e =>
      have := hfil.2
      rw [hel] at this
      simp [SceneElement.isNonEmptyAction] at this
  · intro clips hclips
    constructor
    · rw [audioGo_some_map_fst tts voices (dialogueBlocksOf els) clips hclips]
      refine List.Pairwise.sublist ?_ (dialogueBlocksOf_fst_pairwise els)
      exact (List.filter_sublist _).map _
    · intro clip hclip
      obtain ⟨i, ch, es, pcm, hmem, _, _, hshape⟩ :=
        audioGo_clips_shape tts voices (dialogueBlocksOf els) clips hclips
          clip hclip
      refine ⟨es, ?_⟩
      have := mem_dialogueBlocksOf els i ch es hmem
      rw [hshape]
      exact this

/-- Witness for C8: the demo script's single clip sits at scene index 1,
which holds the URSULA dialogue block. -/
theorem scene_index_invariants_witness :
    ∃ es, demoScript[(1 : Nat)]? =
      some (SceneElement.dialogue_block "URSULA" es) := by
  have hconc : audioStage (fun _ _ => "AAE=") [] demoScript =
      some [⟨1, pcmToWav [0, 1] SAMPLE_RATE 1 16,
        ((2 : Nat) : ℚ) / ((SAMPLE_RATE : ℚ) * 2), "URSULA", "Hello."⟩] := rfl
  obtain ⟨-, hcorr⟩ := (scene_index_invariants (fun s c => s ++ c)
    (fun p => p) [] (fun _ _ => "AAE=") [] demoScript).2 _ hconc
  exact hcorr _ (List.mem_cons_self _ _)

/-- Claim C9: whenever speech synthesis honors its PCM contract (every
returned base64 payload decodes to an even number of bytes — whole 16-bit
mono samples), every byte buffer the pipeline passes to the WAV encoder has
even length: each produced clip's blob is the encoding of an even-length
buffer, with the matching duration. -/
theorem pcm_buffers_even_length (tts : String → String → String)
    (voices : List (String × String)) (els : List SceneElement)
    (hdec : ∀ p v, ∃ l, decode (tts p v) = some l ∧ l.length % 2 = 0) :
    ∀ clips, audioStage tts voices els = some clips →
      ∀ clip ∈ clips, ∃ pcmData : List Nat, pcmData.length % 2 = 0 ∧
        clip.audioBlob = pcmToWav pcmData SAMPLE_RATE 1 16 ∧
        clip.duration = (pcmData.length : ℚ) / (SAMPLE_RATE * 2) := by
  intro clips hclips clip hclip
  obtain ⟨i, ch, es, pcm, _, _, hpcm, hshape⟩ :=
    audioGo_clips_shape tts voices (dialogueBlocksOf els) clips hclips
      clip hclip
  obtain ⟨l, hl, heven⟩ := hdec (promptTextOf es) ((voices.lookup ch).getD "")
  rw [hpcm] at hl
  obtain rfl : pcm = l := by injection hl
  exact ⟨pcm, heven, by rw [hshape], by rw [hshape]⟩

/-- Witness for C9 on the demo script with a fixed two-byte payload. -/
theorem pcm_buffers_even_length_witness :
    ∃ pcmData : List Nat, pcmData.length % 2 = 0 ∧
      (pcmToWav [0, 1] SAMPLE_RATE 1 16 = pcmToWav pcmData SAMPLE_RATE 1 16) := by
  have hconc : audioStage (fun _ _ => "AAE=") [] demoScript =
      some [⟨1, pcmToWav [0, 1] SAMPLE_RATE 1 16,
        ((2 : Nat) : ℚ) / ((SAMPLE_RATE : ℚ) * 2), "URSULA", "Hello."⟩] := rfl
  have h := pcm_buffers_even_length (fun _ _ => "AAE=") [] demoScript
    (by intro p v
        exact ⟨[0, 1], show decode "AAE=" = some [0, 1] by decide, by decide⟩)
    _ hconc
  obtain ⟨pcm, heven, hblob, -⟩ := h _ (List.mem_cons_self _ _)
  exact ⟨pcm, heven, hblob⟩

/-- Claim C10: only the first Dialogue element of a block (and the first
Parenthetical) determines the synthesized audio and the clip's recorded
dialogue; any Dialogue elements after the first contribute nothing, and the
clip's dialogue field is the first Dialogue element's content. -/
theorem only_first_dialogue_element_used (es es' : List DialogueElement)
    (hd : es.find? (fun e => e.kind == DKind.dialogue) =
      es'.find? (fun e => e.kind == DKind.dialogue))
    (hp : es.find? (fun e => e.kind == DKind.parenthetical) =
      es'.find? (fun e => e.kind == DKind.parenthetical)) :
    dialogueTextOf es = dialogueTextOf es' ∧
    promptTextOf es = promptTextOf es' ∧
    (∀ (tts : String → String → String) (voices : List (String × String))
      (i : Nat) (ch : String) rest,
      audioGo tts voices ((i, ch, es) :: rest) =
        audioGo tts voices ((i, ch, es') :: rest)) ∧
    (∀ d, es.find? (fun e => e.kind == DKind.dialogue) = some d →
      dialogueTextOf es = d.content) := by
  have h1 : dialogueTextOf es = dialogueTextOf es' := by
    rw [dialogueTextOf, dialogueTextOf, hd]
  have h2 : promptTextOf es = promptTextOf es' := by
    rw [promptTextOf, promptTextOf, parentheticalOf, parentheticalOf, hp, h1]
  refine ⟨h1, h2, ?_, ?_⟩
  · intro tts voices i ch rest
    rw [audioGo, audioGo, h1, h2]
  · intro d hfind
    rw [dialogueTextOf, hfind]
    rfl

/-- Witness for C10: a block with two Dialogue elements behaves like its
truncation to the first, and records the first line. -/
theorem only_first_dialogue_element_used_witness :
    dialogueTextOf [⟨DKind.dialogue, "One"⟩, ⟨DKind.dialogue, "Two"⟩] =
        "One" ∧
      promptTextOf [⟨DKind.dialogue, "One"⟩, ⟨DKind.dialogue, "Two"⟩] =
        promptTextOf [⟨DKind.dialogue, "One"⟩] := by
  have h := only_first_dialogue_element_used
    [⟨DKind.dialogue, "One"⟩, ⟨DKind.dialogue, "Two"⟩]
    [⟨DKind.dialogue, "One"⟩] (by decide) (by decide)
  exact ⟨h.2.2.2 ⟨DKind.dialogue, "One"⟩ (by decide), h.2.1⟩

/-- Witness for C1 at the concrete payload `[7, 200]`. -/
theorem wav_encoder_layout_roundtrip_witness :
    (pcmToWav [7, 200] 24000 1 16).length = 46 ∧
    readU32le (pcmToWav [7, 200] 24000 1 16) 4 = 38 ∧
    readU32le (pcmToWav [7, 200] 24000 1 16) 40 = 2 ∧
    decodeWavHeader ((pcmToWav [7, 200] 24000 1 16).take 44) =
      { sampleRate := 24000, numChannels := 1, bitsPerSample := 16 } := by
  obtain ⟨h1, -, -, h4, -, -, -, -, -, -, -, -, -, -, h40, hdec⟩ :=
    wav_encoder_layout_roundtrip [7, 200] (by decide)
  exact ⟨h1, h4, h40, hdec⟩
